import Mathlib

/-!
Verification of the Healthscope multi-agent medical report analyzer.

This file shallowly embeds the claim-relevant parts of the repository:

* `agents/base_agent.py`   — `BaseAgent._normalize`, `BaseAgent._extract_json`,
  `BaseAgent.analyze` (the completion call is modelled by its outcome);
* `agents/aggregator_agent.py` — `AggregatorAgent.aggregate`, including the
  condition/recommendation dedup lambda, consensus building, the keyword ->
  specialist referral table and word-boundary matching;
* `utils/llm_client.py`    — the deterministic part of `LLMClient.summarize`
  (the provider call is modelled by its outcome);
* `backend/main.py`        — `_looks_like_raw_cbc` and the interpretation part
  of `parse_cbc_report` (regex extraction of numbers from raw text is modelled
  by passing the extracted values explicitly).

Python dictionaries are modelled as association lists in insertion order,
Python values by the inductive type `PyVal`, and fallible code by `Option`.
Machine floats appearing in the CBC parser are decimal literals that are only
compared and echoed, so they are modelled exactly by rationals.
-/

/-- A Python runtime value, restricted to the shapes this codebase produces:
`None`, booleans, integers, strings, lists and string-keyed dicts (modelled as
association lists in insertion order). -/
inductive PyVal where
  | none
  | bool (b : Bool)
  | int (n : Int)
  | str (s : String)
  | list (l : List PyVal)
  | dict (kvs : List (String × PyVal))

/-- Python truthiness (`bool(v)`) for the modelled values. -/
def truthy : PyVal → Bool
  | PyVal.none => false
  | PyVal.bool b => b
  | PyVal.int n => n != 0
  | PyVal.str s => s != ""
  | PyVal.list l => !l.isEmpty
  | PyVal.dict kvs => !kvs.isEmpty

/-- Python `a or b` on values: `a` when truthy, else `b`. -/
def orPy (a b : PyVal) : PyVal := if truthy a then a else b

/-- `d.get(k)` on a dict: first matching key, `None`-as-absent is `Option.none`. -/
def pyGet (kvs : List (String × PyVal)) (k : String) : Option PyVal :=
  match kvs with
  | [] => Option.none
  | (k2, v) :: rest => if k2 == k then Option.some v else pyGet rest k

/-- `d.get(k)` where an absent key yields Python `None`. -/
def pyGetOr (kvs : List (String × PyVal)) (k : String) : PyVal :=
  (pyGet kvs k).getD PyVal.none

/-- `k in d` on a dict. -/
def hasKey (kvs : List (String × PyVal)) (k : String) : Bool :=
  (pyGet kvs k).isSome

mutual

/-- Python `repr(v)` (string escaping inside reprs is not modelled; the inputs
involved contain no quotes). -/
def pyRepr : PyVal → String
  | PyVal.none => "None"
  | PyVal.bool b => if b then "True" else "False"
  | PyVal.int n => toString n
  | PyVal.str s => "\x27" ++ s ++ "\x27"
  | PyVal.list l => "[" ++ String.intercalate ", " (pyReprList l) ++ "]"
  | PyVal.dict kvs => "\x7b" ++ String.intercalate ", " (pyReprKVs kvs) ++ "\x7d"

def pyReprList : List PyVal → List String
  | [] => []
  | v :: rest => pyRepr v :: pyReprList rest

def pyReprKVs : List (String × PyVal) → List String
  | [] => []
  | (k, v) :: rest => ("\x27" ++ k ++ "\x27: " ++ pyRepr v) :: pyReprKVs rest

end

/-- Python `str(v)`: identity on strings, `repr` rendering otherwise. -/
def pyStr : PyVal → String
  | PyVal.str s => s
  | v => pyRepr v

/-- Python whitespace for `str.strip()` and the `re` class `\s` (ASCII). -/
def isPyWs (c : Char) : Bool :=
  c == ' ' || c == '\t' || c == '\n' || c == '\r' || c == '\x0c' || c == '\x0b'

/-- Python `s.lower()` (ASCII; the modelled inputs are ASCII). -/
def pyLower (s : String) : String := String.mk (s.data.map Char.toLower)

/-- Python `s.strip()`: drop leading and trailing whitespace. -/
def pyStrip (s : String) : String :=
  String.mk (((s.data.dropWhile isPyWs).reverse.dropWhile isPyWs).reverse)

/-- Does `pat` occur at the head of `cs`? -/
def strLeads : List Char → List Char → Bool
  | [], _ => true
  | _ :: _, [] => false
  | p :: ps, c :: cs => p == c && strLeads ps cs

/-- Python `needle in hay` substring test, on character lists. -/
def containsSeq (pat : List Char) : List Char → Bool
  | [] => strLeads pat []
  | c :: cs => strLeads pat (c :: cs) || containsSeq pat cs

/-- Python `needle in hay` substring test on strings. -/
def containsSub (needle hay : String) : Bool :=
  containsSeq needle.toList hay.toList

/-- `s.startswith(pre)`. -/
def strStarts (s pre : String) : Bool := strLeads pre.data s.data

/-- Python `re` word character (`\w`), restricted to ASCII as in the inputs. -/
def isWordChar (c : Char) : Bool := c.isAlpha || c.isDigit || c == '_'

/-- Does the (all-word-character) keyword `k` match in `t` at position `i` with
`\b` boundaries on both sides?  Models `re.search(r"\b<kw>\b", t)` for the
keywords of the referral table, which consist of word characters only. -/
def wordMatchAt (k t : List Char) (i : Nat) : Bool :=
  strLeads k (t.drop i) &&
  (decide (i = 0) || !isWordChar (t.getD (i - 1) ' ')) &&
  (match t.drop (i + k.length) with
   | [] => true
   | c :: _ => !isWordChar c)

/-- `re.search(r"\b<kw>\b", text)` as a Bool: some position matches. -/
def wordSearch (kw text : String) : Bool :=
  let k := kw.toList
  let t := text.toList
  (List.range (t.length + 1)).any (fun i => wordMatchAt k t i)

/-! ### A model of Python `json.loads`

`_extract_json` and `_normalize` call `json.loads`.  The parser below follows
the JSON grammar as `json.loads` accepts it (strict mode): whitespace between
tokens, `null`/`true`/`false`, double-quoted strings with backslash escapes and
no raw control characters, arrays and objects.  Numeric literals are modelled
for integers; a fraction or exponent part makes the model parser fail
(conservative: no claim input contains a float literal).  Surrogate-pair
`\u` escapes and duplicate object keys do not occur in the modelled inputs. -/

def isJsonWs (c : Char) : Bool := c == ' ' || c == '\t' || c == '\n' || c == '\r'

def skipWs : List Char → List Char
  | [] => []
  | c :: cs => if isJsonWs c then skipWs cs else c :: cs

def hexVal (c : Char) : Option Nat :=
  if c.isDigit then Option.some (c.toNat - 48)
  else if 'a' ≤ c && c ≤ 'f' then Option.some (c.toNat - 87)
  else if 'A' ≤ c && c ≤ 'F' then Option.some (c.toNat - 55)
  else Option.none

/-- Body of a JSON string after the opening quote: returns content and rest. -/
def parseJStr : List Char → List Char → Option (String × List Char)
  | [], _ => Option.none
  | c :: cs, acc =>
    if c == '"' then Option.some (String.mk acc.reverse, cs)
    else if c == '\\' then
      match cs with
      | [] => Option.none
      | e :: cs2 =>
        if e == '"' then parseJStr cs2 ('"' :: acc)
        else if e == '\\' then parseJStr cs2 ('\\' :: acc)
        else if e == '/' then parseJStr cs2 ('/' :: acc)
        else if e == 'b' then parseJStr cs2 ('\x08' :: acc)
        else if e == 'f' then parseJStr cs2 ('\x0c' :: acc)
        else if e == 'n' then parseJStr cs2 ('\n' :: acc)
        else if e == 'r' then parseJStr cs2 ('\r' :: acc)
        else if e == 't' then parseJStr cs2 ('\t' :: acc)
        else if e == 'u' then
          match cs2 with
          | d1 :: d2 :: d3 :: d4 :: cs3 =>
            match hexVal d1, hexVal d2, hexVal d3, hexVal d4 with
            | Option.some a, Option.some b, Option.some c3, Option.some d =>
              parseJStr cs3 (Char.ofNat (((a * 16 + b) * 16 + c3) * 16 + d) :: acc)
            | _, _, _, _ => Option.none
          | _ => Option.none
        else Option.none
    else if c.toNat < 32 then Option.none
    else parseJStr cs (c :: acc)

def takeDigits : List Char → (List Char × List Char)
  | [] => ([], [])
  | c :: cs =>
    if c.isDigit then
      let (ds, r) := takeDigits cs
      (c :: ds, r)
    else ([], c :: cs)

def digitsToNat (ds : List Char) : Nat :=
  ds.foldl (fun a c => a * 10 + (c.toNat - 48)) 0

/-- JSON number token (integer part only; see the section comment). -/
def parseJNum (cs : List Char) : Option (PyVal × List Char) :=
  let (neg, cs1) :=
    match cs with
    | '-' :: r => (true, r)
    | r => (false, r)
  match cs1 with
  | [] => Option.none
  | c :: r =>
    if !c.isDigit then Option.none
    else
      let (ds, rest) := if c == '0' then ([c], r) else takeDigits (c :: r)
      match rest with
      | '.' :: _ => Option.none
      | 'e' :: _ => Option.none
      | 'E' :: _ => Option.none
      | _ =>
        let n : Int := Int.ofNat (digitsToNat ds)
        Option.some (PyVal.int (if neg then -n else n), rest)

mutual

def parseJVal : Nat → List Char → Option (PyVal × List Char)
  | 0, _ => Option.none
  | Nat.succ f, cs =>
    match skipWs cs with
    | [] => Option.none
    | c :: rest =>
      if c == 'n' then
        match rest with
        | 'u' :: 'l' :: 'l' :: r => Option.some (PyVal.none, r)
        | _ => Option.none
      else if c == 't' then
        match rest with
        | 'r' :: 'u' :: 'e' :: r => Option.some (PyVal.bool true, r)
        | _ => Option.none
      else if c == 'f' then
        match rest with
        | 'a' :: 'l' :: 's' :: 'e' :: r => Option.some (PyVal.bool false, r)
        | _ => Option.none
      else if c == '"' then
        match parseJStr rest [] with
        | Option.some (s, r) => Option.some (PyVal.str s, r)
        | Option.none => Option.none
      else if c == '[' then parseJArr f rest
      else if c == '\x7b' then parseJObj f rest
      else if c == '-' || c.isDigit then parseJNum (c :: rest)
      else Option.none

def parseJArr : Nat → List Char → Option (PyVal × List Char)
  | 0, _ => Option.none
  | Nat.succ f, cs =>
    match skipWs cs with
    | ']' :: r => Option.some (PyVal.list [], r)
    | cs2 => parseJArrItems f cs2 []

def parseJArrItems : Nat → List Char → List PyVal → Option (PyVal × List Char)
  | 0, _, _ => Option.none
  | Nat.succ f, cs, acc =>
    match parseJVal f cs with
    | Option.none => Option.none
    | Option.some (v, r) =>
      match skipWs r with
      | ',' :: r2 => parseJArrItems f r2 (acc ++ [v])
      | ']' :: r2 => Option.some (PyVal.list (acc ++ [v]), r2)
      | _ => Option.none

def parseJObj : Nat → List Char → Option (PyVal × List Char)
  | 0, _ => Option.none
  | Nat.succ f, cs =>
    match skipWs cs with
    | '\x7d' :: r => Option.some (PyVal.dict [], r)
    | cs2 => parseJObjItems f cs2 []

def parseJObjItems : Nat → List Char → List (String × PyVal) →
    Option (PyVal × List Char)
  | 0, _, _ => Option.none
  | Nat.succ f, cs, acc =>
    match skipWs cs with
    | '"' :: r =>
      match parseJStr r [] with
      | Option.none => Option.none
      | Option.some (k, r2) =>
        match skipWs r2 with
        | ':' :: r3 =>
          match parseJVal f r3 with
          | Option.none => Option.none
          | Option.some (v, r4) =>
            match skipWs r4 with
            | ',' :: r5 => parseJObjItems f r5 (acc ++ [(k, v)])
            | '\x7d' :: r5 => Option.some (PyVal.dict (acc ++ [(k, v)]), r5)
            | _ => Option.none
        | _ => Option.none
    | _ => Option.none

end

/-- Python `json.loads`: parse one JSON value, allowing surrounding whitespace
and rejecting trailing data. -/
def jsonLoads (s : String) : Option PyVal :=
  match parseJVal (s.length * 4 + 4) s.toList with
  | Option.some (v, r) => if (skipWs r).isEmpty then Option.some v else Option.none
  | Option.none => Option.none

/-! ### `BaseAgent._normalize` (agents/base_agent.py) -/

/-- `re.split(r"[\n;,]", v)` delimiter set. -/
def isSplitDelim (c : Char) : Bool := c == '\n' || c == ';' || c == ','

/-- `re.split(r"[\n;,]", v)` on a character list (consecutive delimiters give
empty groups, exactly like `re.split`). -/
def splitDelims (cs : List Char) : List (List Char) :=
  cs.foldr
    (fun c acc =>
      if isSplitDelim c then [] :: acc
      else
        match acc with
        | [] => [[c]]
        | g :: gs => (c :: g) :: gs)
    [[]]

/-- `[s.strip() for s in re.split(r"[\n;,]", v) if s.strip()]`. -/
def splitClean (s : String) : List String :=
  ((splitDelims s.toList).map (fun g => pyStrip (String.mk g))).filter
    (fun x => x ≠ "")

/-- `_as_list(key)` inside `_normalize`: coerce `d.get(key)` to a Python list. -/
def asListV (d : List (String × PyVal)) (key : String) : List PyVal :=
  match pyGet d key with
  | Option.none => []
  | Option.some PyVal.none => []
  | Option.some (PyVal.list l) => l
  | Option.some (PyVal.str s) => (splitClean s).map PyVal.str
  | Option.some v => [v]

/-- `str(d.get("summary") or d.get("summary_text") or d.get("executive_summary") or "")`. -/
def normSummary (d : List (String × PyVal)) : PyVal :=
  PyVal.str (pyStr (orPy (pyGetOr d "summary")
    (orPy (pyGetOr d "summary_text")
      (orPy (pyGetOr d "executive_summary") (PyVal.str "")))))

/-- `str(d.get("major_problem") or d.get("major_issue") or "")`. -/
def normMajorProblem (d : List (String × PyVal)) : PyVal :=
  PyVal.str (pyStr (orPy (pyGetOr d "major_problem")
    (orPy (pyGetOr d "major_issue") (PyVal.str ""))))

/-- `str(d.get("condition") or d.get("diagnosis") or "")`. -/
def normCondition (d : List (String × PyVal)) : PyVal :=
  PyVal.str (pyStr (orPy (pyGetOr d "condition")
    (orPy (pyGetOr d "diagnosis") (PyVal.str ""))))

/-- `str(d.get("severity") or d.get("risk") or "medium")`. -/
def normSeverity (d : List (String × PyVal)) : PyVal :=
  PyVal.str (pyStr (orPy (pyGetOr d "severity")
    (orPy (pyGetOr d "risk") (PyVal.str "medium"))))

/-- `str(d.get("confidence") or "medium")`. -/
def normConfidence (d : List (String × PyVal)) : PyVal :=
  PyVal.str (pyStr (orPy (pyGetOr d "confidence") (PyVal.str "medium")))

/-- `str(d.get("focus") or "")`. -/
def normFocus (d : List (String × PyVal)) : PyVal :=
  PyVal.str (pyStr (orPy (pyGetOr d "focus") (PyVal.str "")))

/-- `str(d.get("explanation") or d.get("reasoning") or "")`. -/
def normExplanation (d : List (String × PyVal)) : PyVal :=
  PyVal.str (pyStr (orPy (pyGetOr d "explanation")
    (orPy (pyGetOr d "reasoning") (PyVal.str ""))))

/-- The `evidence` clause of `_normalize`. -/
def normEvidence (d : List (String × PyVal)) : PyVal :=
  match pyGet d "evidence" with
  | Option.none => PyVal.list []
  | Option.some PyVal.none => PyVal.list []
  | Option.some (PyVal.list l) => PyVal.list l
  | Option.some (PyVal.str s) => PyVal.list [PyVal.str s]
  | Option.some v => PyVal.list [PyVal.str (pyStr v)]

/-- `_preserve_objs(key) if key in d else None` for the two `*_raw` keys. -/
def normRaw (d : List (String × PyVal)) (key : String) : PyVal :=
  if hasKey d key then
    match pyGetOr d key with
    | PyVal.none => PyVal.list []
    | v => v
  else PyVal.none

/-- The `abnormal_values` clause of `_normalize`: keep dicts, parse strings
with `json.loads` (falling back to a one-key dict holding `str(ab)` under the
key `value` when parsing fails), wrap any other non-null value the same way. -/
def normAbnormal (d : List (String × PyVal)) : PyVal :=
  match pyGet d "abnormal_values" with
  | Option.none => PyVal.dict []
  | Option.some PyVal.none => PyVal.dict []
  | Option.some (PyVal.dict m) => PyVal.dict m
  | Option.some (PyVal.str s) =>
    match jsonLoads s with
    | Option.some v => v
    | Option.none => PyVal.dict [("value", PyVal.str s)]
  | Option.some v => PyVal.dict [("value", v)]

/-- `d.get("role") or self.name or ""`. -/
def normRole (name : String) (d : List (String × PyVal)) : PyVal :=
  orPy (pyGetOr d "role") (orPy (PyVal.str name) (PyVal.str ""))

/-- `BaseAgent._normalize(d)`: build the output dict in the assignment order of
the source, with `name` the agent name (`self.name`). -/
def pyNormalize (name : String) (d : List (String × PyVal)) :
    List (String × PyVal) :=
  [("summary", normSummary d),
   ("major_problem", normMajorProblem d),
   ("condition", normCondition d),
   ("severity", normSeverity d),
   ("confidence", normConfidence d),
   ("focus", normFocus d),
   ("findings", PyVal.list (asListV d "findings")),
   ("likely_conditions", PyVal.list (asListV d "likely_conditions")),
   ("recommended_tests", PyVal.list (asListV d "recommended_tests")),
   ("recommended_treatments", PyVal.list (asListV d "recommended_treatments")),
   ("recommendations", PyVal.list (asListV d "recommendations")),
   ("next_steps", PyVal.list (asListV d "next_steps")),
   ("explanation", normExplanation d),
   ("evidence", normEvidence d),
   ("recommended_tests_raw", normRaw d "recommended_tests_raw"),
   ("recommended_treatments_raw", normRaw d "recommended_treatments_raw"),
   ("abnormal_values", normAbnormal d),
   ("patient_actions", PyVal.list (asListV d "patient_actions")),
   ("role", normRole name d)]

/-- The key set `_normalize` always emits, in assignment order. -/
def normalizedKeys : List String :=
  ["summary", "major_problem", "condition", "severity", "confidence", "focus",
   "findings", "likely_conditions", "recommended_tests",
   "recommended_treatments", "recommendations", "next_steps", "explanation",
   "evidence", "recommended_tests_raw", "recommended_treatments_raw",
   "abnormal_values", "patient_actions", "role"]

/-! ### `BaseAgent._extract_json` (agents/base_agent.py) -/

def skipReWs : List Char → List Char
  | [] => []
  | c :: cs => if isPyWs c then skipReWs cs else c :: cs

/-- After a candidate closing brace of the fenced group: `\s*` then ```` ``` ````. -/
def fenceTailOk (cs : List Char) : Bool :=
  strLeads "```".toList (skipReWs cs)

/-- Non-greedy `.*?\}` of the fenced-block regex: extend the group to the first
closing brace whose tail matches `\s*` ```` ``` ````. -/
def fenceBody : List Char → List Char → Option String
  | [], _ => Option.none
  | c :: cs, acc =>
    if c == '\x7d' && fenceTailOk cs then
      Option.some (String.mk ((c :: acc).reverse))
    else fenceBody cs (c :: acc)

/-- Match ```` ```json\s*(\{.*?\})\s*``` ```` anchored at the head of `cs`,
returning the group. -/
def matchFenceAt (cs : List Char) : Option String :=
  if strLeads "```json".toList cs then
    match skipReWs (cs.drop 7) with
    | '\x7b' :: body => fenceBody body ['\x7b']
    | _ => Option.none
  else Option.none

/-- `re.search` for the fenced-block pattern: leftmost match wins. -/
def fencedSearch : List Char → Option String
  | [] => Option.none
  | c :: cs =>
    match matchFenceAt (c :: cs) with
    | Option.some g => Option.some g
    | Option.none => fencedSearch cs

/-- `raw[start:stop]` on a character list. -/
def sliceStr (t : List Char) (start stop : Nat) : String :=
  String.mk ((t.drop start).take (stop - start))

/-- The balanced-brace loop of `_extract_json`: character scan from the first
brace with string/escape state; at depth 0 parse the candidate; a parse
failure executes `break` (the scan stops and the whole recovery yields
nothing). -/
def balGo (t : List Char) (start : Nat) :
    Nat → List Char → Int → Bool → Bool → Option (List (String × PyVal))
  | _, [], _, _, _ => Option.none
  | i, c :: rest, depth, inStr, esc =>
    if esc then balGo t start (i + 1) rest depth inStr false
    else if c == '\\' then balGo t start (i + 1) rest depth inStr true
    else if c == '"' then balGo t start (i + 1) rest depth (!inStr) esc
    else if inStr then balGo t start (i + 1) rest depth inStr esc
    else if c == '\x7b' then balGo t start (i + 1) rest (depth + 1) inStr esc
    else if c == '\x7d' then
      if depth - 1 == 0 then
        match jsonLoads (sliceStr t start (i + 1)) with
        | Option.some (PyVal.dict d) => Option.some d
        | Option.some _ => balGo t start (i + 1) rest (depth - 1) inStr esc
        | Option.none => Option.none
      else balGo t start (i + 1) rest (depth - 1) inStr esc
    else balGo t start (i + 1) rest depth inStr esc

/-- `BaseAgent._extract_json(raw)`: whole-string parse, then fenced block,
then balanced-brace scan. -/
def extractJson (raw : String) : Option (List (String × PyVal)) :=
  match jsonLoads raw with
  | Option.some (PyVal.dict d) => Option.some d
  | _ =>
    let t := raw.toList
    let step3 : Option (List (String × PyVal)) :=
      match t.findIdx? (fun c => c == '\x7b') with
      | Option.none => Option.none
      | Option.some start => balGo t start start (t.drop start) 0 false false
    match fencedSearch t with
    | Option.some g =>
      match jsonLoads g with
      | Option.some (PyVal.dict d) => Option.some d
      | _ => step3
    | Option.none => step3

/-- Index (absolute) of the brace closing the balanced region that begins at
the scan position, honouring double-quoted strings and backslash escapes. -/
def balCloseIdx :
    Nat → List Char → Int → Bool → Bool → Option Nat
  | _, [], _, _, _ => Option.none
  | i, c :: rest, depth, inStr, esc =>
    if esc then balCloseIdx (i + 1) rest depth inStr false
    else if c == '\\' then balCloseIdx (i + 1) rest depth inStr true
    else if c == '"' then balCloseIdx (i + 1) rest depth (!inStr) esc
    else if inStr then balCloseIdx (i + 1) rest depth inStr esc
    else if c == '\x7b' then balCloseIdx (i + 1) rest (depth + 1) inStr esc
    else if c == '\x7d' then
      if depth - 1 == 0 then Option.some i
      else balCloseIdx (i + 1) rest (depth - 1) inStr esc
    else balCloseIdx (i + 1) rest depth inStr esc

/-- Modelled from the spec (refinement comparison for the JSON-recovery
claim): the balanced-brace strategy as the spec words it — find a `\x7b`,
depth-balanced scan honouring quoted strings and escapes to its matching
close, parse that substring, and on parse failure continue scanning from the
next `\x7b` after the current start. -/
def specScan (t : List Char) : Nat → Nat → Option (List (String × PyVal))
  | 0, _ => Option.none
  | Nat.succ f, start =>
    match (t.drop start).findIdx? (fun c => c == '\x7b') with
    | Option.none => Option.none
    | Option.some k =>
      let abs := start + k
      match balCloseIdx abs (t.drop abs) 0 false false with
      | Option.some e =>
        match jsonLoads (sliceStr t abs (e + 1)) with
        | Option.some (PyVal.dict d) => Option.some d
        | _ => specScan t f (abs + 1)
      | Option.none => specScan t f (abs + 1)

/-- Modelled from the spec (refinement comparison for the JSON-recovery
claim): three-strategy recovery whose balanced-brace scan retries from the
next opening brace when a balanced candidate fails to parse. -/
def specRecover (raw : String) : Option (List (String × PyVal)) :=
  match jsonLoads raw with
  | Option.some (PyVal.dict d) => Option.some d
  | _ =>
    let t := raw.toList
    let step3 := specScan t (t.length + 1) 0
    match fencedSearch t with
    | Option.some g =>
      match jsonLoads g with
      | Option.some (PyVal.dict d) => Option.some d
      | _ => step3
    | Option.none => step3

/-! ### `clean_text` (utils/preprocessing.py) and `BaseAgent.analyze` -/

/-- `re.sub(r"\s+", " ", text)`: collapse every whitespace run to one space. -/
def collapseWs : List Char → List Char
  | [] => []
  | c :: cs =>
    if isPyWs c then ' ' :: collapseWs (cs.dropWhile isPyWs)
    else c :: collapseWs cs
termination_by l => l.length
decreasing_by
  · exact Nat.lt_succ_of_le (List.dropWhile_suffix _).length_le
  · exact Nat.lt_succ_self _

/-- Case-insensitive literal prefix test (for the `Page N of M` pattern). -/
def ciLeads : List Char → List Char → Bool
  | [], _ => true
  | _ :: _, [] => false
  | p :: ps, c :: cs => p == c.toLower && ciLeads ps cs

/-- One match of `re.sub(r"Page \d+ of \d+", "", t, flags=re.IGNORECASE)`
anchored at the head: returns the rest after the match. -/
def matchFooter (cs : List Char) : Option (List Char) :=
  if ciLeads "page ".toList cs then
    let (ds1, r2) := takeDigits (cs.drop 5)
    if ds1.isEmpty then Option.none
    else if ciLeads " of ".toList r2 then
      let (ds2, r3) := takeDigits (r2.drop 4)
      if ds2.isEmpty then Option.none else Option.some r3
    else Option.none
  else Option.none

/-- Left-to-right non-overlapping removal of the page-footer pattern. -/
def stripFooters : Nat → List Char → List Char
  | 0, cs => cs
  | _ + 1, [] => []
  | f + 1, c :: cs =>
    match matchFooter (c :: cs) with
    | Option.some rest => stripFooters f rest
    | Option.none => c :: stripFooters f cs

/-- `clean_text(text, max_chars)` from utils/preprocessing.py. -/
def cleanText (text : String) (maxChars : Nat) : String :=
  if text = "" then ""
  else
    let t1 := pyStrip (String.mk (collapseWs text.toList))
    let t2 := String.mk (stripFooters t1.length t1.toList)
    if t2.length > maxChars then
      String.mk (t2.toList.take maxChars) ++ "\n... (truncated)"
    else t2

/-- `re.search(r"\{.*\}", raw, flags=re.DOTALL)`: greedy span from the first
opening brace to the last closing brace after it. -/
def greedyBraceSpan (s : String) : Option String :=
  let t := s.toList
  match t.reverse.findIdx? (fun c => c == '\x7d') with
  | Option.none => Option.none
  | Option.some jr =>
    let j := t.length - 1 - jr
    match t.findIdx? (fun c => c == '\x7b') with
    | Option.none => Option.none
    | Option.some i => if i < j then Option.some (sliceStr t i (j + 1)) else Option.none

/-- The keyword list of the deterministic fallback inside `analyze`. -/
def analyzeKeywords : List String :=
  ["fever", "cough", "chest pain", "shortness of breath", "dyspnea",
   "palpitation", "rash", "itching", "abdominal pain", "diarrhea",
   "constipation", "headache", "fatigue", "weight loss", "weight gain",
   "polyuria", "polydipsia", "hematuria", "anemia", "elevated", "low",
   "high", "creatinine", "bilirubin", "hb", "wbc"]

/-- The per-agent recommendation lists of the deterministic fallback. -/
def fallbackRecs (name : String) : List String :=
  let nl := pyLower name
  if containsSub "cardio" nl then
    ["Obtain ECG", "Consider echocardiography if cardiac cause suspected",
     "Refer to cardiology for further evaluation"]
  else if containsSub "pulmo" nl || containsSub "pulmon" nl then
    ["Obtain chest X-ray", "Consider spirometry",
     "Refer to pulmonology if respiratory symptoms persist"]
  else if containsSub "psych" nl then
    ["Consider assessment for anxiety/depression",
     "Refer to psychiatry for further evaluation"]
  else if containsSub "derm" nl then
    ["Consider dermatology consult",
     "Photograph lesions and consider topical/systemic therapy based on severity"]
  else if containsSub "hema" nl || containsSub "hemat" nl then
    ["Repeat CBC with differential",
     "Review peripheral smear and consider hematology referral if abnormalities persist"]
  else if containsSub "neph" nl then
    ["Check renal function (serum creatinine, electrolytes)",
     "Urinalysis and urine protein quantification",
     "Refer to nephrology if abnormal"]
  else if containsSub "radio" nl then
    ["Obtain relevant imaging and share imaging reports with radiology for formal read"]
  else
    ["Obtain relevant investigations and refer to appropriate specialist as needed"]

/-- `BaseAgent.analyze(text, llm_client)` with the completion call modelled by
its outcome: `Except.error e` is a raised exception with message `e`,
`Except.ok raw` the returned assistant text.  `name` is `self.name`. -/
def analyze (name text : String) (chatOutcome : Except String String) :
    List (String × PyVal) :=
  match chatOutcome with
  | Except.error e =>
    pyNormalize name
      [("summary", PyVal.str ("LLM error or not configured: " ++ e)),
       ("likely_conditions", PyVal.list []),
       ("recommendations", PyVal.list []),
       ("confidence", PyVal.str "low")]
  | Except.ok raw =>
    let parsed : Option PyVal :=
      match jsonLoads raw with
      | Option.some v => Option.some v
      | Option.none =>
        match greedyBraceSpan raw with
        | Option.some g => jsonLoads g
        | Option.none => Option.none
    match parsed with
    | Option.some (PyVal.dict pd) => pyNormalize name pd
    | _ =>
      if strStarts (pyStrip raw) "(LLM unavailable)"
          || containsSub "Could you share" raw
          || containsSub "clarify" (pyLower raw) then
        let body := String.mk ((cleanText text 15000).toList.take 1000)
        let found := analyzeKeywords.filter (fun kw => containsSub kw (pyLower body))
        pyNormalize name
          [("summary", PyVal.str (String.mk ((pyStrip body).toList.take 2000))),
           ("likely_conditions", PyVal.list (found.map PyVal.str)),
           ("recommendations", PyVal.list ((fallbackRecs name).map PyVal.str)),
           ("confidence", PyVal.str "low"),
           ("focus", PyVal.str ""),
           ("findings", PyVal.list []),
           ("major_problem", PyVal.str ""),
           ("condition", PyVal.str ""),
           ("severity", PyVal.str "low"),
           ("recommended_tests", PyVal.list []),
           ("recommended_treatments", PyVal.list []),
           ("next_steps", PyVal.list [])]
      else
        pyNormalize name
          [("summary", PyVal.str raw),
           ("likely_conditions", PyVal.list []),
           ("recommendations", PyVal.list []),
           ("confidence", PyVal.str "medium")]

/-! ### `AggregatorAgent.aggregate` (agents/aggregator_agent.py)

`llm_client.summarize` catches provider errors internally and can also return
Python `None` (unrecognized provider), so its outcome is modelled by an
`Option String` parameter; the only deterministic part is the empty-input
short-circuit.  An `Option` result of `aggregate` models an uncaught
exception (`TypeError`/`AttributeError` on wrongly-typed member values). -/

/-- `LLMClient.summarize(text)`: deterministic shell around the provider call
(whose outcome is `apiOutcome`). -/
def summarize (text : String) (apiOutcome : Option String) : Option String :=
  if text = "" then Option.some "No text provided to summarize." else apiOutcome

/-- `d.get(k, default)`. -/
def pyGetD (kvs : List (String × PyVal)) (k : String) (dflt : PyVal) : PyVal :=
  (pyGet kvs k).getD dflt

/-- `list.extend(v)` argument as an iterable: lists iterate elements, strings
iterate characters, dicts iterate keys; anything else raises `TypeError`. -/
def extendIter : PyVal → Option (List PyVal)
  | PyVal.list l => Option.some l
  | PyVal.str s => Option.some (s.toList.map (fun c => PyVal.str (String.mk [c])))
  | PyVal.dict kvs => Option.some (kvs.map (fun kv => PyVal.str kv.1))
  | _ => Option.none

/-- The first loop of `aggregate`: collect `summaries` (raw values),
`all_conditions` and `all_recommendations`. -/
def collectGo : List PyVal → List PyVal × List PyVal × List PyVal →
    Option (List PyVal × List PyVal × List PyVal)
  | [], acc => Option.some acc
  | r :: rest, (sums, conds, recs) =>
    match r with
    | PyVal.dict d =>
      let sv := (pyGet d "summary").getD (PyVal.str (pyStr (PyVal.dict d)))
      match extendIter (pyGetD d "likely_conditions" (PyVal.list [])),
            extendIter (pyGetD d "recommendations" (PyVal.list [])) with
      | Option.some lc, Option.some rc =>
        collectGo rest (sums ++ [sv], conds ++ lc, recs ++ rc)
      | _, _ => Option.none
    | r2 => collectGo rest (sums ++ [PyVal.str (pyStr r2)], conds, recs)

/-- `"\n".join(summaries)`: raises `TypeError` unless every member is a str. -/
def asStrings : List PyVal → Option (List String)
  | [] => Option.some []
  | PyVal.str s :: rest => (asStrings rest).map (fun l => s :: l)
  | _ :: _ => Option.none

def joinSummaries (vs : List PyVal) : Option String :=
  (asStrings vs).map (String.intercalate "\n")

/-- The per-result consensus extraction
`(r.get("summary") or r.get("executive_summary") or str(r))` followed by
`(s or "").strip()`; `Option.none` models the `AttributeError` raised when the
selected value is not a string. -/
def consensusEntry (r : PyVal) : Option String :=
  match r with
  | PyVal.dict d =>
    let sVal := orPy (pyGetOr d "summary")
      (orPy (pyGetOr d "executive_summary") (PyVal.str (pyStr (PyVal.dict d))))
    let sOr := if truthy sVal then sVal else PyVal.str ""
    match sOr with
    | PyVal.str s => Option.some (pyStrip s)
    | _ => Option.none
  | r2 => Option.some (pyStrip (pyStr r2))

/-- The consensus loop: keep a trimmed entry the first time its lowercased
form is seen, skipping empty keys. -/
def consensusGo : List PyVal → List String → List String → Option (List String)
  | [], acc, _ => Option.some acc
  | r :: rest, acc, seen =>
    match consensusEntry r with
    | Option.none => Option.none
    | Option.some sNorm =>
      let key := pyLower sNorm
      if key ≠ "" && !(seen.contains key) then
        consensusGo rest (acc ++ [sNorm]) (key :: seen)
      else consensusGo rest acc seen

/-- The body of the dedup lambda applied to `all_conditions` and
`all_recommendations` (before the final `[::-1]`): an element is KEPT when its
trimmed lowercased form is empty or was seen before, and DROPPED (while being
recorded) the first time it is seen. -/
def dedupGo : List PyVal → List String → List PyVal
  | [], _ => []
  | x :: rest, s =>
    let key := pyLower (pyStrip (pyStr x))
    if key == "" then x :: dedupGo rest s
    else if s.contains key then x :: dedupGo rest s
    else dedupGo rest (key :: s)

/-- The full dedup lambda of `aggregate` (comprehension then `[::-1]`). -/
def dedupLambda (lst : List PyVal) : List PyVal :=
  (dedupGo lst []).reverse

/-- The condition-keyword -> specialist mapping of `aggregate`, in insertion
order. -/
def referralTable : List (String × String) :=
  [("hypertension", "Cardiologist"),
   ("chest", "Cardiologist"),
   ("ecg", "Cardiologist"),
   ("anxiety", "Psychologist / Neurologist"),
   ("depression", "Psychologist / Neurologist"),
   ("cough", "Pulmonologist"),
   ("breath", "Pulmonologist"),
   ("thyroid", "Endocrinologist"),
   ("diabetes", "Endocrinologist"),
   ("blood", "Hematologist / Pathologist"),
   ("liver", "Gastroenterologist"),
   ("stomach", "Gastroenterologist"),
   ("kidney", "Nephrologist"),
   ("skin", "Dermatologist"),
   ("rash", "Dermatologist"),
   ("xray", "Radiologist"),
   ("ct", "Radiologist"),
   ("mri", "Radiologist")]

def referralSentence (kw spec : String) : String :=
  "Because the report mentions \x27" ++ kw ++ "\x27, a " ++ spec ++
    " may provide deeper evaluation and targeted recommendations."

/-- One iteration of the keyword loop: word-boundary search; a specialist is
added (with its justification sentence) only if not already suggested. -/
def inferStep (text : String) (st : List String × List (String × String))
    (kv : String × String) : List String × List (String × String) :=
  if wordSearch kv.1 text then
    if st.1.contains kv.2 then st
    else (st.1 ++ [kv.2], st.2 ++ [(kv.2, referralSentence kv.1 kv.2)])
  else st

/-- The whole keyword loop over the referral table. -/
def inferAll (text : String) : List String × List (String × String) :=
  referralTable.foldl (inferStep text) ([], [])

/-- The report dict built by `aggregate`. -/
structure AggReport where
  executive_summary : String
  consensus_findings : List String
  all_conditions : List PyVal
  recommendations : List PyVal
  next_steps : List String
  specialist_suggestions : List String
  specialist_explanations : List (String × String)
  disclaimer : String

/-- `AggregatorAgent.aggregate(results, llm_client)`. -/
def aggregate (results : List PyVal) (apiOutcome : Option String) :
    Option AggReport :=
  match collectGo results ([], [], []) with
  | Option.none => Option.none
  | Option.some (sums, conds, recs) =>
    match joinSummaries sums with
    | Option.none => Option.none
    | Option.some combined =>
      let summaryO := summarize combined apiOutcome
      match consensusGo results [] [] with
      | Option.none => Option.none
      | Option.some consensus =>
        let allConds := if conds.isEmpty then [] else dedupLambda conds
        let allRecs := if recs.isEmpty then [] else dedupLambda recs
        let extraParts := allConds.map pyStr ++ allRecs.map pyStr
        let searchText :=
          pyLower (combined ++ "\n" ++ String.intercalate "\n" extraParts)
        let st := inferAll searchText
        let exec0 :=
          match summaryO with
          | Option.some s => if s ≠ "" then s else "No summary available."
          | Option.none => "No summary available."
        let execFinal :=
          if st.1.isEmpty then exec0
          else
            pyStrip exec0 ++
              "\n\nSuggested specialist opinions: Consider getting an opinion from: "
              ++ String.intercalate ", " st.1 ++ "."
        Option.some (AggReport.mk
          execFinal
          (if consensus.isEmpty then ["No consensus findings."] else consensus)
          allConds
          allRecs
          ["Review the recommendations with relevant specialists.",
           "Order indicated tests (ECG, Echo, CXR, spirometry) if not already done."]
          st.1
          st.2
          "This is not a medical diagnosis. Please consult a doctor.")

/-! ### `_looks_like_raw_cbc` and `parse_cbc_report` (backend/main.py)

`parse_cbc_report` first extracts `age`/`sex` and the numeric values with
regexes; the interpretation logic that follows is embedded here over the
extracted values (`CbcVals`).  `age` is extracted by the source but never used
afterwards, so it is omitted.  The numeric values are decimal literals that
are only compared and echoed, hence modelled exactly by `ℚ`. -/

inductive CbcSex where
  | male
  | female

/-- The values the regex prelude of `parse_cbc_report` extracts from the raw
text (each `Option.none` when its pattern does not match). -/
structure CbcVals where
  hb : Option ℚ
  mcv : Option ℚ
  mch : Option ℚ
  mchc : Option ℚ
  wbc : Option ℚ
  plate : Option ℚ
  sex : Option CbcSex

/-- Fraction digits of a terminating decimal (`rem/den` scaled by 10). -/
def renderFrac : Nat → Nat → Nat → List Char
  | 0, _, _ => []
  | f + 1, rem, den =>
    if rem = 0 then []
    else Char.ofNat (48 + rem * 10 / den) :: renderFrac f (rem * 10 % den) den

/-- Python `str(float)` for the nonnegative terminating decimals of a CBC
report (`str(8.5) = "8.5"`, `str(70.0) = "70.0"`). -/
def renderQ (q : ℚ) : String :=
  let n := q.num.toNat
  let d := q.den
  let frac := renderFrac 30 (n % d) d
  toString (n / d) ++ "." ++ (if frac.isEmpty then "0" else String.mk frac)

/-- The Hb interpretation block of `parse_cbc_report`: note and updated
severity from the measured value, the detected sex and the current severity. -/
def hbClassify (sex : Option CbcSex) (h : ℚ) (sev : String) : String × String :=
  match sex with
  | Option.some CbcSex.male =>
    if h < 10 then ("low (moderate to severe)", "high")
    else if h < 13 then ("low (mild)", if sev ≠ "high" then "medium" else sev)
    else ("normal", sev)
  | Option.some CbcSex.female =>
    if h < 9 then ("low (moderate to severe)", "high")
    else if h < 12 then ("low (mild)", if sev ≠ "high" then "medium" else sev)
    else ("normal", sev)
  | Option.none =>
    if h < 10 then ("low (moderate to severe)", "high")
    else if h < 12 then ("low (mild)", if sev ≠ "high" then "medium" else sev)
    else ("normal", sev)

/-- The structured output dict of `parse_cbc_report`. -/
structure CbcOut where
  summary : String
  abnormal_values : List (String × String)
  findings : List String
  major_problem : String
  condition : String
  severity : String
  likely_conditions : List String
  recommended_tests : List String
  recommended_treatments : List String
  recommendations : List String
  next_steps : List String
  patient_actions : List String
  confidence : String

/-- `parse_cbc_report` after value extraction: populate `abnormal_values`,
findings, the anemia heuristics and the summary, in source order. -/
def parseCbcFromVals (v : CbcVals) : CbcOut :=
  let hbBlock :=
    match v.hb with
    | Option.some h =>
      let ns := hbClassify v.sex h "low"
      ([("Hb", renderQ h ++ " g/dL (" ++ ns.1 ++ ")")], ns.2)
    | Option.none => ([], "low")
  let ab1 := hbBlock.1
  let sev1 := hbBlock.2
  let ab2 := ab1 ++
    (match v.mcv with
     | Option.some m =>
       [("MCV", renderQ m ++ " fL (" ++
         (if m < 80 then "low (microcytosis)"
          else if m > 100 then "high (macrocytosis)" else "normal") ++ ")")]
     | Option.none => [])
  let ab3 := ab2 ++
    (match v.mch with
     | Option.some m => [("MCH", renderQ m ++ " pg")]
     | Option.none => [])
  let ab4 := ab3 ++
    (match v.mchc with
     | Option.some m => [("MCHC", renderQ m ++ " g/dL")]
     | Option.none => [])
  let wbcBlock :=
    match v.wbc with
    | Option.some w =>
      (ab4 ++ [("WBC", renderQ w ++ " /uL")],
       if w < 4000 then ["Leukopenia"]
       else if w > 11000 then ["Leukocytosis"] else [])
    | Option.none => (ab4, [])
  let plateBlock :=
    match v.plate with
    | Option.some p =>
      (wbcBlock.1 ++ [("Platelets", renderQ p ++ " /uL")],
       wbcBlock.2 ++
         (if p < 150 then ["Thrombocytopenia"]
          else if p > 450 then ["Thrombocytosis"] else []))
    | Option.none => (wbcBlock.1, wbcBlock.2)
  let ab6 := plateBlock.1
  let anemia :=
    match v.hb with
    | Option.some h => decide (h < 12)
    | Option.none => false
  let findings := plateBlock.2 ++ (if anemia then ["Anemia"] else [])
  let likely := if anemia then ["Iron deficiency anemia"] else []
  let rtests :=
    if anemia then ["Serum ferritin", "Serum iron & TIBC", "Peripheral smear"]
    else []
  let rtreat :=
    if anemia then
      ["Consider oral iron supplementation if iron deficiency confirmed"]
    else []
  let pact :=
    if anemia then ["Start iron-rich diet and take prescribed iron as directed"]
    else []
  let nsteps := if anemia then ["Repeat CBC and iron studies in 2-4 weeks"] else []
  let parts :=
    (if !findings.isEmpty then
      ["Findings: " ++ String.intercalate ", " findings] else []) ++
    (if !ab6.isEmpty then
      ["Key abnormal labs: " ++
        String.intercalate ", " (ab6.map (fun kv => kv.1 ++ " " ++ kv.2))]
     else []) ++
    (if !likely.isEmpty then
      ["Most likely: " ++ String.intercalate ", " likely] else [])
  let summary :=
    if parts.isEmpty then "No major hematologic abnormalities detected."
    else String.intercalate ". " parts
  CbcOut.mk summary ab6 findings "" "" sev1 likely rtests rtreat [] nsteps pact
    "low"

/-- `_looks_like_raw_cbc(x)` from `_safe_call` in backend/main.py. -/
def looksLikeRawCbc (x : PyVal) : Bool :=
  match x with
  | PyVal.str s =>
    containsSub "hemoglobin" (pyLower s) ||
      (containsSub "hb" (pyLower s) && containsSub "rbc" (pyLower s))
  | PyVal.dict d =>
    !truthy (pyGetOr d "findings") && !truthy (pyGetOr d "abnormal_values") &&
      (containsSub "hemoglobin" (pyStr (PyVal.dict d)) ||
        containsSub "hb" (pyLower (pyStr (PyVal.dict d))))
  | _ => false

/-- The parser output as the Python dict `_safe_call` substitutes for the
agent result, with the `role` key set to `role_name` and appended last. -/
def cbcToDict (o : CbcOut) (role : String) : List (String × PyVal) :=
  [("summary", PyVal.str o.summary),
   ("abnormal_values",
     PyVal.dict (o.abnormal_values.map (fun kv => (kv.1, PyVal.str kv.2)))),
   ("findings", PyVal.list (o.findings.map PyVal.str)),
   ("major_problem", PyVal.str o.major_problem),
   ("condition", PyVal.str o.condition),
   ("severity", PyVal.str o.severity),
   ("likely_conditions", PyVal.list (o.likely_conditions.map PyVal.str)),
   ("recommended_tests", PyVal.list (o.recommended_tests.map PyVal.str)),
   ("recommended_treatments",
     PyVal.list (o.recommended_treatments.map PyVal.str)),
   ("recommendations", PyVal.list (o.recommendations.map PyVal.str)),
   ("next_steps", PyVal.list (o.next_steps.map PyVal.str)),
   ("patient_actions", PyVal.list (o.patient_actions.map PyVal.str)),
   ("confidence", PyVal.str o.confidence),
   ("role", PyVal.str role)]

/-- The hematology branch of `_safe_call`: when the agent result looks like a
raw CBC table it is replaced by the deterministic parser output (the raw text
choice feeding the regex prelude is summarised by `vals`). -/
def hemaCbcStep (res : PyVal) (vals : CbcVals) (roleName : String) : PyVal :=
  if looksLikeRawCbc res then
    PyVal.dict (cbcToDict (parseCbcFromVals vals) roleName)
  else res

/-- Association-list lookup for the abnormal-values dict. -/
def lookupStr (l : List (String × String)) (k : String) : Option String :=
  match l with
  | [] => Option.none
  | (k2, v) :: rest => if k2 == k then Option.some v else lookupStr rest k

/-! ### Shared helpers for the theorems -/

/-- Keys of a Python dict, in order. -/
def keysOf (kvs : List (String × PyVal)) : List String := kvs.map Prod.fst

theorem pyNormalize_keysOf (name : String) (d : List (String × PyVal)) :
    keysOf (pyNormalize name d) = normalizedKeys := rfl

theorem pyNormalize_get_abnormal (name : String) (d : List (String × PyVal)) :
    pyGet (pyNormalize name d) "abnormal_values" = Option.some (normAbnormal d) :=
  rfl

theorem pyNormalize_get_findings (name : String) (d : List (String × PyVal)) :
    pyGet (pyNormalize name d) "findings"
      = Option.some (PyVal.list (asListV d "findings")) := rfl

theorem pyNormalize_get_severity (name : String) (d : List (String × PyVal)) :
    pyGet (pyNormalize name d) "severity" = Option.some (normSeverity d) := rfl

theorem pyNormalize_get_confidence (name : String) (d : List (String × PyVal)) :
    pyGet (pyNormalize name d) "confidence" = Option.some (normConfidence d) :=
  rfl

/-- Is the value a Python mapping? -/
def isDictV : PyVal → Bool
  | PyVal.dict _ => true
  | _ => false

/-! ### Claim C2 — normalizer totality -/

/-- C2 (counterexample): `normalize(\x7b"abnormal_values": "5"\x7d)` carries the
field as the integer `5`, which is not a mapping, refuting the claim that the
`abnormal_values` field of every normalized result is a mapping. -/
theorem normalize_abnormal_nonmapping :
    pyGet (pyNormalize "Hematologist" [("abnormal_values", PyVal.str "5")])
        "abnormal_values" = Option.some (PyVal.int 5) ∧
      isDictV (PyVal.int 5) = false :=
  ⟨rfl, rfl⟩

/-- C2 (amended): for every mapping `d`, `normalize(d)` emits the complete
field set (no field is ever absent), and `abnormal_values` is a mapping
whenever the source value is not a string (a string source is handed to
`json.loads`, whose result — possibly a non-mapping — is stored as-is when it
parses). -/
theorem normalize_always_complete (name : String) (d : List (String × PyVal)) :
    keysOf (pyNormalize name d) = normalizedKeys ∧
    ((∀ s, pyGet d "abnormal_values" ≠ Option.some (PyVal.str s)) →
      ∃ m, pyGet (pyNormalize name d) "abnormal_values"
        = Option.some (PyVal.dict m)) := by
  refine ⟨rfl, fun h => ?_⟩
  rw [pyNormalize_get_abnormal]
  unfold normAbnormal
  cases hv : pyGet d "abnormal_values" with
  | none => exact ⟨[], rfl⟩
  | some v =>
    cases v with
    | none => exact ⟨[], rfl⟩
    | bool b => exact ⟨[("value", PyVal.bool b)], rfl⟩
    | int n => exact ⟨[("value", PyVal.int n)], rfl⟩
    | str s => exact absurd hv (h s)
    | list l => exact ⟨[("value", PyVal.list l)], rfl⟩
    | dict m => exact ⟨m, rfl⟩

/-- C2 witness: the amended theorem applied at a concrete mapping. -/
theorem normalize_always_complete_witness :
    keysOf (pyNormalize "Cardiologist" [("summary", PyVal.str "ok")])
        = normalizedKeys ∧
      isDictV (pyGetOr (pyNormalize "Cardiologist" [("summary", PyVal.str "ok")])
        "abnormal_values") = true := by
  have h := normalize_always_complete "Cardiologist" [("summary", PyVal.str "ok")]
  obtain ⟨m, hm⟩ := h.2 (fun s hs => Option.noConfusion hs)
  refine ⟨h.1, ?_⟩
  unfold pyGetOr
  rw [hm]
  rfl

/-! ### Claim C3 — list-field coercion -/

theorem splitDelims_cons (c : Char) (cs : List Char) :
    splitDelims (c :: cs) =
      if isSplitDelim c then [] :: splitDelims cs
      else
        match splitDelims cs with
        | [] => [[c]]
        | g :: gs => (c :: g) :: gs := rfl

theorem splitDelims_ne_nil (cs : List Char) : splitDelims cs ≠ [] := by
  induction cs with
  | nil => simp [splitDelims]
  | cons c cs ih =>
    rw [splitDelims_cons]
    split
    · exact List.cons_ne_nil _ _
    · split
      · exact List.cons_ne_nil _ _
      · exact List.cons_ne_nil _ _

/-- Modelled from the spec (refinement comparison): scan the string left to
right, cutting a new piece at every newline, semicolon or comma. -/
def specSplitPieces : List Char → List Char → List (List Char)
  | [], acc => [acc.reverse]
  | c :: cs, acc =>
    if isSplitDelim c then acc.reverse :: specSplitPieces cs []
    else specSplitPieces cs (c :: acc)

theorem specSplitPieces_eq (cs : List Char) : ∀ acc,
    specSplitPieces cs acc =
      match splitDelims cs with
      | [] => [acc.reverse]
      | g :: gs => (acc.reverse ++ g) :: gs := by
  induction cs with
  | nil => intro acc; simp [specSplitPieces, splitDelims]
  | cons c cs ih =>
    intro acc
    rw [splitDelims_cons]
    by_cases h : isSplitDelim c
    · simp only [specSplitPieces, h, if_true]
      rw [ih []]
      cases hs : splitDelims cs with
      | nil => exact absurd hs (splitDelims_ne_nil cs)
      | cons g gs => simp
    · simp only [specSplitPieces, h, if_false]
      rw [ih (c :: acc)]
      cases hs : splitDelims cs with
      | nil => exact absurd hs (splitDelims_ne_nil cs)
      | cons g gs => simp

/-- Modelled from the spec (refinement comparison): split on
newline/semicolon/comma, trim each piece, drop empty pieces. -/
def specSplitClean (s : String) : List String :=
  ((specSplitPieces s.toList []).map (fun g => pyStrip (String.mk g))).filter
    (fun x => x ≠ "")

theorem splitClean_eq_spec (s : String) : splitClean s = specSplitClean s := by
  unfold splitClean specSplitClean
  rw [specSplitPieces_eq]
  cases hs : splitDelims s.toList with
  | nil => exact absurd hs (splitDelims_ne_nil _)
  | cons g gs => simp

/-- C3 (counterexample): `normalize(\x7b"findings": 5\x7d)` stores `[5]` — the raw
value, not its string form `["5"]` — and `normalize(\x7b"findings": ""\x7d)`
yields `[]`, not a one-element sequence, refuting the claim as stated. -/
theorem as_list_nonstring_kept_raw :
    pyGet (pyNormalize "X" [("findings", PyVal.int 5)]) "findings"
        = Option.some (PyVal.list [PyVal.int 5]) ∧
      PyVal.list [PyVal.int 5] ≠ PyVal.list [PyVal.str "5"] ∧
      pyGet (pyNormalize "X" [("findings", PyVal.str "")]) "findings"
        = Option.some (PyVal.list []) :=
  ⟨rfl, by simp, by rfl⟩

/-- C3 (amended): list sources are used as-is; string sources are split on
newline/semicolon/comma with pieces trimmed and empty pieces dropped (so a
delimiter-free string with non-whitespace content becomes a one-element
sequence, while an empty or all-whitespace string becomes the empty
sequence); absent/null becomes the empty sequence; any other value becomes a
one-element sequence containing the value itself (not its string form), e.g.
`normalize(\x7b"findings": 5\x7d)` yields `[5]`. -/
theorem as_list_coercion (name : String) (d : List (String × PyVal)) :
    (∀ l, pyGet d "findings" = Option.some (PyVal.list l) →
      pyGet (pyNormalize name d) "findings" = Option.some (PyVal.list l)) ∧
    (pyGet d "findings" = Option.none →
      pyGet (pyNormalize name d) "findings" = Option.some (PyVal.list [])) ∧
    (pyGet d "findings" = Option.some PyVal.none →
      pyGet (pyNormalize name d) "findings" = Option.some (PyVal.list [])) ∧
    (∀ s, pyGet d "findings" = Option.some (PyVal.str s) →
      pyGet (pyNormalize name d) "findings"
        = Option.some (PyVal.list ((specSplitClean s).map PyVal.str))) ∧
    (∀ v, pyGet d "findings" = Option.some v → (∀ s, v ≠ PyVal.str s) →
      (∀ l, v ≠ PyVal.list l) → v ≠ PyVal.none →
      pyGet (pyNormalize name d) "findings" = Option.some (PyVal.list [v])) ∧
    pyGet (pyNormalize name [("findings", PyVal.str "a, b; c\nd")]) "findings"
      = Option.some (PyVal.list
          [PyVal.str "a", PyVal.str "b", PyVal.str "c", PyVal.str "d"]) := by
  refine ⟨?_, ?_, ?_, ?_, ?_, by rfl⟩
  · intro l h
    rw [pyNormalize_get_findings]
    unfold asListV
    rw [h]
  · intro h
    rw [pyNormalize_get_findings]
    unfold asListV
    rw [h]
  · intro h
    rw [pyNormalize_get_findings]
    unfold asListV
    rw [h]
  · intro s h
    rw [pyNormalize_get_findings]
    unfold asListV
    rw [h]
    show Option.some (PyVal.list (List.map PyVal.str (splitClean s)))
      = Option.some (PyVal.list (List.map PyVal.str (specSplitClean s)))
    rw [splitClean_eq_spec]
  · intro v h hs hl hn
    rw [pyNormalize_get_findings]
    unfold asListV
    rw [h]
    cases v with
    | none => exact absurd rfl hn
    | bool b => rfl
    | int n => rfl
    | str s => exact absurd rfl (hs s)
    | list l => exact absurd rfl (hl l)
    | dict m => rfl

/-- C3 witness: the amended theorem applied at concrete inputs. -/
theorem as_list_coercion_witness :
    pyGet (pyNormalize "X" [("findings", PyVal.list [PyVal.str "x"])])
      "findings" = Option.some (PyVal.list [PyVal.str "x"]) :=
  (as_list_coercion "X" [("findings", PyVal.list [PyVal.str "x"])]).1
    [PyVal.str "x"] rfl

/-! ### Claim C7 — severity/confidence enumeration -/

/-- C7 (counterexample): `_normalize` passes an arbitrary non-empty severity
string straight through, so the output is not confined to
`\x7blow, medium, high\x7d`. -/
theorem severity_enum_not_enforced :
    pyGet (pyNormalize "X" [("severity", PyVal.str "critical")]) "severity"
        = Option.some (PyVal.str "critical") ∧
      "critical" ∉ (["low", "medium", "high"] : List String) :=
  ⟨by rfl, by decide⟩

/-- C7 (amended): severity falls back to `"medium"` when both `severity` and
`risk` are absent, and confidence falls back to `"medium"` when `confidence`
is absent; a non-empty string source value is passed through unvalidated, so
membership in `\x7blow, medium, high\x7d` is not enforced. -/
theorem severity_confidence_defaults (name : String)
    (d : List (String × PyVal)) :
    (pyGet d "severity" = Option.none → pyGet d "risk" = Option.none →
      pyGet (pyNormalize name d) "severity"
        = Option.some (PyVal.str "medium")) ∧
    (pyGet d "confidence" = Option.none →
      pyGet (pyNormalize name d) "confidence"
        = Option.some (PyVal.str "medium")) ∧
    (∀ s, s ≠ "" → pyGet d "severity" = Option.some (PyVal.str s) →
      pyGet (pyNormalize name d) "severity" = Option.some (PyVal.str s)) ∧
    (∀ s, s ≠ "" → pyGet d "confidence" = Option.some (PyVal.str s) →
      pyGet (pyNormalize name d) "confidence" = Option.some (PyVal.str s)) := by
  refine ⟨?_, ?_, ?_, ?_⟩
  · intro h1 h2
    rw [pyNormalize_get_severity]
    unfold normSeverity pyGetOr
    rw [h1, h2]
    rfl
  · intro h1
    rw [pyNormalize_get_confidence]
    unfold normConfidence pyGetOr
    rw [h1]
    rfl
  · intro s hs h1
    rw [pyNormalize_get_severity]
    unfold normSeverity pyGetOr
    rw [h1]
    simp [orPy, truthy, pyStr, hs]
  · intro s hs h1
    rw [pyNormalize_get_confidence]
    unfold normConfidence pyGetOr
    rw [h1]
    simp [orPy, truthy, pyStr, hs]

/-- C7 witness: the amended theorem applied at concrete mappings. -/
theorem severity_confidence_defaults_witness :
    pyGet (pyNormalize "X" []) "severity" = Option.some (PyVal.str "medium") ∧
      pyGet (pyNormalize "X" [("severity", PyVal.str "high")]) "severity"
        = Option.some (PyVal.str "high") := by
  refine ⟨(severity_confidence_defaults "X" []).1 rfl rfl, ?_⟩
  exact (severity_confidence_defaults "X"
    [("severity", PyVal.str "high")]).2.2.1 "high" (by decide) rfl

/-! ### Claim C9 — provider failure recovery in `analyze` -/

theorem pyNormalize_get_summary (name : String) (d : List (String × PyVal)) :
    pyGet (pyNormalize name d) "summary" = Option.some (normSummary d) := rfl

/-- C9 (confirmed): when the completion call raises, `analyze` returns a fully
normalized result (complete field set) whose summary encodes the error and
whose confidence is `"low"`; the failure is a return value, not an
exception. -/
theorem analyze_provider_failure (name text e : String) :
    keysOf (analyze name text (Except.error e)) = normalizedKeys ∧
    pyGet (analyze name text (Except.error e)) "summary"
      = Option.some (PyVal.str ("LLM error or not configured: " ++ e)) ∧
    pyGet (analyze name text (Except.error e)) "confidence"
      = Option.some (PyVal.str "low") := by
  have hne : ("LLM error or not configured: " ++ e) ≠ "" := by
    intro h
    have hlen := congrArg String.length h
    rw [String.length_append] at hlen
    rw [show ("LLM error or not configured: ").length = 29 from rfl,
      show ("" : String).length = 0 from rfl] at hlen
    omega
  refine ⟨rfl, ?_, by rfl⟩
  have h1 : analyze name text (Except.error e) =
      pyNormalize name
        [("summary", PyVal.str ("LLM error or not configured: " ++ e)),
         ("likely_conditions", PyVal.list []),
         ("recommendations", PyVal.list []),
         ("confidence", PyVal.str "low")] := rfl
  rw [h1, pyNormalize_get_summary]
  have h2 : normSummary
      [("summary", PyVal.str ("LLM error or not configured: " ++ e)),
       ("likely_conditions", PyVal.list []),
       ("recommendations", PyVal.list []),
       ("confidence", PyVal.str "low")]
      = PyVal.str (pyStr (orPy
          (PyVal.str ("LLM error or not configured: " ++ e))
          (orPy PyVal.none (orPy PyVal.none (PyVal.str ""))))) := rfl
  rw [h2]
  simp [orPy, truthy, pyStr, hne]

/-! ### Claim C1 — condition/recommendation dedup -/

/-- C1 (code bug): for concatenated conditions `["A","b","A","C","b"]` the
aggregator emits `["b","A"]` — the comprehension keeps an element only when
its trimmed lowercase form was already seen (so first occurrences are dropped
and repeats kept) and the final `[::-1]` reverses the list — contradicting the
first-seen order `["A","b","C"]` stated by the spec and by the source comment
above the expression. -/
theorem aggregate_dedup_keeps_repeats_reversed :
    (aggregate [PyVal.dict
        [("summary", PyVal.str "s"),
         ("likely_conditions", PyVal.list
           [PyVal.str "A", PyVal.str "b", PyVal.str "A", PyVal.str "C",
            PyVal.str "b"]),
         ("recommendations", PyVal.list [])]]
        (Option.some "ok")).map AggReport.all_conditions
      = Option.some [PyVal.str "b", PyVal.str "A"] ∧
      (["b", "A"] : List String) ≠ ["A", "b", "C"] :=
  ⟨by rfl, by decide⟩

/-! ### Claim C10 — blank summaries and consensus -/

theorem consensusGo_cons (r : PyVal) (rest : List PyVal) (acc seen : List String) :
    consensusGo (r :: rest) acc seen =
      match consensusEntry r with
      | Option.none => Option.none
      | Option.some sNorm =>
        if pyLower sNorm ≠ "" && !(seen.contains (pyLower sNorm)) then
          consensusGo rest (acc ++ [sNorm]) (pyLower sNorm :: seen)
        else consensusGo rest acc seen := rfl

theorem consensusGo_cons_none (r : PyVal) (rest : List PyVal)
    (acc seen : List String) (h : consensusEntry r = Option.none) :
    consensusGo (r :: rest) acc seen = Option.none := by
  rw [consensusGo_cons, h]

theorem consensusGo_cons_some (r : PyVal) (rest : List PyVal)
    (acc seen : List String) (s : String) (h : consensusEntry r = Option.some s) :
    consensusGo (r :: rest) acc seen =
      if pyLower s ≠ "" && !(seen.contains (pyLower s)) then
        consensusGo rest (acc ++ [s]) (pyLower s :: seen)
      else consensusGo rest acc seen := by
  rw [consensusGo_cons, h]

theorem consensusGo_all_blank (rs : List PyVal) : ∀ acc seen,
    (∀ r ∈ rs, consensusEntry r = Option.some "") →
    consensusGo rs acc seen = Option.some acc := by
  induction rs with
  | nil => intro acc seen _; rfl
  | cons r rest ih =>
    intro acc seen h
    rw [consensusGo_cons_some r rest acc seen "" (h r (List.mem_cons_self r rest))]
    norm_num [pyLower]
    exact ih acc seen (fun x hx => h x (List.mem_cons_of_mem r hx))

/-- C10 (amended): a result whose extracted consensus string (the
`summary`-or-`executive_summary`-or-`str(r)` chain) trims to empty contributes
no entry to `consensus_findings`; consequently when every element of the input
extracts to a blank string (e.g. whitespace-only, non-empty summaries — an
empty-string summary instead falls through to `str(r)`), the aggregate
report has the sentinel `["No consensus findings."]` as its consensus. -/
theorem consensus_blank_contribution :
    (∀ results acc seen,
      consensusGo results acc seen =
        consensusGo
          (results.filter (fun r => !(consensusEntry r == Option.some "")))
          acc seen) ∧
    (∀ results api rep,
      (∀ r ∈ results, consensusEntry r = Option.some "") →
      aggregate results api = Option.some rep →
      rep.consensus_findings = ["No consensus findings."]) := by
  constructor
  · intro results
    induction results with
    | nil => intro acc seen; rfl
    | cons r rest ih =>
      intro acc seen
      cases he : consensusEntry r with
      | none =>
        have hkeep : (!(consensusEntry r == Option.some "")) = true := by
          simp [he]
        rw [consensusGo_cons_none r rest acc seen he, List.filter_cons, hkeep]
        simp only [if_pos]
        rw [consensusGo_cons_none r _ acc seen he]
      | some s =>
        by_cases hs : s = ""
        · subst hs
          have hdrop : (!(consensusEntry r == Option.some "")) = false := by
            simp [he]
          rw [consensusGo_cons_some r rest acc seen "" he, List.filter_cons,
            hdrop]
          norm_num [pyLower]
          exact ih acc seen
        · have hkeep : (!(consensusEntry r == Option.some "")) = true := by
            simp [he, hs]
          rw [consensusGo_cons_some r rest acc seen s he, List.filter_cons,
            hkeep]
          simp only [if_pos]
          rw [consensusGo_cons_some r _ acc seen s he]
          by_cases hc : (pyLower s ≠ "" && !(seen.contains (pyLower s))) = true
          · rw [if_pos hc, if_pos hc]
            exact ih (acc ++ [s]) (pyLower s :: seen)
          · rw [if_neg hc, if_neg hc]
            exact ih acc seen
  · intro results api rep hall hagg
    unfold aggregate at hagg
    split at hagg
    · exact absurd hagg (by simp)
    · rename_i sums conds recs heqc
      split at hagg
      · exact absurd hagg (by simp)
      · rename_i combined heqj
        split at hagg
        · exact absurd hagg (by simp)
        · rename_i consensus heqk
          rw [consensusGo_all_blank results [] [] hall] at heqk
          have hcons : consensus = [] := (Option.some.inj heqk).symm
          subst hcons
          have hrep := Option.some.inj hagg
          rw [← hrep]
          rfl

/-- C10 (counterexample): a non-empty input whose only element has an
EMPTY-string summary does not yield the sentinel: the `or`-chain falls
through to `str(r)`, contributing the dict repr as a consensus finding. -/
theorem consensus_empty_summary_fallthrough :
    (aggregate [PyVal.dict [("summary", PyVal.str "")]]
        (Option.some "x")).map AggReport.consensus_findings
      = Option.some ["\x7b\x27summary\x27: \x27\x27\x7d"] ∧
      (["\x7b\x27summary\x27: \x27\x27\x7d"] : List String)
        ≠ ["No consensus findings."] :=
  ⟨by rfl, by decide⟩

/-- C10 witness: the amended theorem applied to a whitespace-only summary. -/
theorem consensus_blank_contribution_witness :
    (aggregate [PyVal.dict [("summary", PyVal.str " ")]]
        (Option.some "x")).map AggReport.consensus_findings
      = Option.some ["No consensus findings."] := by
  obtain ⟨rep, hrep⟩ : ∃ rep,
      aggregate [PyVal.dict [("summary", PyVal.str " ")]] (Option.some "x")
        = Option.some rep := ⟨_, rfl⟩
  rw [hrep]
  have h := consensus_blank_contribution.2
    [PyVal.dict [("summary", PyVal.str " ")]] (Option.some "x") rep
    (fun r hr => by
      rw [List.mem_singleton.mp hr]
      rfl) hrep
  show Option.some rep.consensus_findings
    = Option.some ["No consensus findings."]
  rw [h]

/-! ### Claim C8 — aggregation sentinels, no escaping exception -/

theorem str_append_ne_right (a b : String) (hb : b ≠ "") : a ++ b ≠ "" := by
  intro h
  have hlen := congrArg String.length h
  rw [String.length_append, show ("" : String).length = 0 from rfl] at hlen
  have hbl : b.length ≠ 0 := by
    cases b with
    | mk l =>
      cases l with
      | nil => exact absurd rfl hb
      | cons c cs => simp [String.length]
  omega

theorem collectGo_strings (rs : List PyVal) : ∀ sums conds recs,
    (∀ r ∈ rs, ∃ s, r = PyVal.str s) →
    ∃ strs : List String, collectGo rs (sums, conds, recs)
      = Option.some (sums ++ strs.map PyVal.str, conds, recs) := by
  induction rs with
  | nil => intro sums conds recs _; exact ⟨[], by simp [collectGo]⟩
  | cons r rest ih =>
    intro sums conds recs h
    obtain ⟨s, rfl⟩ := h r (List.mem_cons_self r rest)
    obtain ⟨strs, hstrs⟩ := ih (sums ++ [PyVal.str s]) conds recs
      (fun x hx => h x (List.mem_cons_of_mem _ hx))
    refine ⟨s :: strs, ?_⟩
    have step : collectGo (PyVal.str s :: rest) (sums, conds, recs)
        = collectGo rest (sums ++ [PyVal.str s], conds, recs) := rfl
    rw [step, hstrs]
    simp

theorem asStrings_map (l : List String) :
    asStrings (l.map PyVal.str) = Option.some l := by
  induction l with
  | nil => rfl
  | cons s rest ih => simp [asStrings, ih]

theorem consensusGo_strings (rs : List PyVal) : ∀ acc seen,
    (∀ r ∈ rs, ∃ s, r = PyVal.str s) →
    ∃ out, consensusGo rs acc seen = Option.some out := by
  induction rs with
  | nil => intro acc seen _; exact ⟨acc, rfl⟩
  | cons r rest ih =>
    intro acc seen h
    obtain ⟨s, rfl⟩ := h r (List.mem_cons_self r rest)
    have he : consensusEntry (PyVal.str s) = Option.some (pyStrip s) := rfl
    rw [consensusGo_cons_some _ rest acc seen _ he]
    split
    · exact ih _ _ (fun x hx => h x (List.mem_cons_of_mem _ hx))
    · exact ih _ _ (fun x hx => h x (List.mem_cons_of_mem _ hx))

/-- C8 (confirmed): `aggregate([])` produces the sentinel report (consensus
`["No consensus findings."]`, non-empty executive summary); every all-string
input list yields a report rather than an exception; and every report
`aggregate` returns carries a non-empty executive summary and non-empty
consensus findings (the defined sentinels stand in when content is missing). -/
theorem aggregate_sentinel_values :
    (∀ api, aggregate [] api = Option.some (AggReport.mk
      "No text provided to summarize." ["No consensus findings."] [] []
      ["Review the recommendations with relevant specialists.",
       "Order indicated tests (ECG, Echo, CXR, spirometry) if not already done."]
      [] [] "This is not a medical diagnosis. Please consult a doctor.")) ∧
    (∀ results api, (∀ r ∈ results, ∃ s, r = PyVal.str s) →
      ∃ rep, aggregate results api = Option.some rep) ∧
    (∀ results api rep, aggregate results api = Option.some rep →
      rep.executive_summary ≠ "" ∧ rep.consensus_findings ≠ []) := by
  refine ⟨fun api => rfl, ?_, ?_⟩
  · intro results api h
    obtain ⟨strs, hc⟩ := collectGo_strings results [] [] [] h
    obtain ⟨out, hk⟩ := consensusGo_strings results [] [] h
    have hj : joinSummaries (strs.map PyVal.str)
        = Option.some (String.intercalate "\n" strs) := by
      simp [joinSummaries, asStrings_map]
    rw [← Option.isSome_iff_exists]
    unfold aggregate
    simp only [hc, List.nil_append, hj, hk]
    rfl
  · intro results api rep h
    unfold aggregate at h
    split at h
    · exact absurd h (by simp)
    · rename_i sums conds recs heqc
      split at h
      · exact absurd h (by simp)
      · rename_i combined heqj
        split at h
        · exact absurd h (by simp)
        · rename_i consensus heqk
          obtain rfl := Option.some.inj h
          have hexec : (match summarize combined api with
              | Option.some s => if s ≠ "" then s else "No summary available."
              | Option.none => "No summary available.") ≠ "" := by
            cases hsum : summarize combined api with
            | none => decide
            | some s =>
              show (if s ≠ "" then s else "No summary available.") ≠ ""
              by_cases hs : s = ""
              · rw [if_neg (by simp [hs])]
                decide
              · rw [if_pos hs]
                exact hs
          constructor
          · by_cases hC : (inferAll (pyLower (combined ++ "\n" ++
                String.intercalate "\n"
                  (List.map pyStr
                      (if conds.isEmpty = true then [] else dedupLambda conds)
                    ++ List.map pyStr
                      (if recs.isEmpty = true then []
                       else dedupLambda recs))))).1.isEmpty = true
            · show (if _ = true then _ else _) ≠ ""
              rw [if_pos hC]
              exact hexec
            · show (if _ = true then _ else _) ≠ ""
              rw [if_neg hC]
              exact str_append_ne_right _ "." (by decide)
          · cases consensus with
            | nil => simp
            | cons x xs => simp

/-- C8 witness: the theorem applied at concrete inputs. -/
theorem aggregate_sentinel_values_witness :
    (aggregate [PyVal.str "hi"] (Option.some "s")).isSome = true ∧
      "No text provided to summarize." ≠ "" ∧
      (["No consensus findings."] : List String) ≠ [] := by
  obtain ⟨rep, hrep⟩ := aggregate_sentinel_values.2.1 [PyVal.str "hi"]
    (Option.some "s") (fun r hr => ⟨"hi", List.mem_singleton.mp hr⟩)
  refine ⟨by rw [hrep]; rfl, ?_, ?_⟩
  · exact (aggregate_sentinel_values.2.2 [] Option.none _
      (aggregate_sentinel_values.1 Option.none)).1
  · exact (aggregate_sentinel_values.2.2 [] Option.none _
      (aggregate_sentinel_values.1 Option.none)).2

/-! ### Claim C4 — JSON recovery strategies -/

/-- C4 (counterexample): in `_extract_json`, a balanced candidate that fails
to parse executes `break`, so the scan does NOT continue from the next opening
brace: the code returns absent on an input where the spec-described algorithm
(`specRecover`) recovers the later object. -/
theorem extract_json_stops_on_parse_failure :
    extractJson "\x7bbad\x7d \x7b\"a\":1\x7d" = Option.none ∧
      specRecover "\x7bbad\x7d \x7b\"a\":1\x7d"
        = Option.some [("a", PyVal.int 1)] :=
  ⟨by rfl, by rfl⟩

/-- C4 (amended): recovery follows the three-strategy priority order
(whole-string parse; fenced ```` ```json ```` block; depth-balanced brace scan
that ignores braces inside double-quoted strings honouring backslash escapes),
returns absent when no strategy yields a mapping and never throws — but on
parse failure of a balanced candidate the scan stops (`break`) and recovery
returns absent instead of continuing from the next opening brace. -/
theorem extract_json_strategies :
    (∀ raw d, jsonLoads raw = Option.some (PyVal.dict d) →
      extractJson raw = Option.some d) ∧
    extractJson "Sure! ```json\n\x7b\"x\":1\x7d\n```"
      = Option.some [("x", PyVal.int 1)] ∧
    extractJson "prefix \x7b\"a\": \x7b\"b\": \"\x7d\"\x7d\x7d suffix"
      = Option.some [("a", PyVal.dict [("b", PyVal.str "\x7d")])] ∧
    extractJson "no json here" = Option.none ∧
    extractJson "\x7bbad\x7d \x7b\"a\":1\x7d" = Option.none := by
  refine ⟨?_, by rfl, by rfl, by rfl, by rfl⟩
  intro raw d h
  unfold extractJson
  rw [h]

/-- C4 witness: the amended theorem applied at a concrete input. -/
theorem extract_json_strategies_witness :
    extractJson "\x7b\"k\": true\x7d" = Option.some [("k", PyVal.bool true)] :=
  extract_json_strategies.1 "\x7b\"k\": true\x7d" [("k", PyVal.bool true)]
    (by rfl)

/-! ### Claim C6 — specialist-referral inference -/

theorem foldl_infer_keys (text : String) : ∀ (tbl : List (String × String))
    (s : List String) (e : List (String × String)), e.map Prod.fst = s →
    ((tbl.foldl (inferStep text) (s, e)).2).map Prod.fst
      = (tbl.foldl (inferStep text) (s, e)).1 := by
  intro tbl
  induction tbl with
  | nil => intro s e h; exact h
  | cons kv rest ih =>
    intro s e h
    simp only [List.foldl_cons]
    unfold inferStep
    by_cases hw : wordSearch kv.1 text = true
    · rw [if_pos hw]
      by_cases hc : (s, e).1.contains kv.2 = true
      · rw [if_pos hc]
        exact ih s e h
      · rw [if_neg hc]
        exact ih (s ++ [kv.2]) (e ++ [(kv.2, referralSentence kv.1 kv.2)])
          (by simp [h])
    · rw [if_neg hw]
      exact ih s e h

theorem foldl_infer_nodup (text : String) : ∀ (tbl : List (String × String))
    (s : List String) (e : List (String × String)), s.Nodup →
    (tbl.foldl (inferStep text) (s, e)).1.Nodup := by
  intro tbl
  induction tbl with
  | nil => intro s e h; exact h
  | cons kv rest ih =>
    intro s e h
    simp only [List.foldl_cons]
    unfold inferStep
    by_cases hw : wordSearch kv.1 text = true
    · rw [if_pos hw]
      by_cases hc : (s, e).1.contains kv.2 = true
      · rw [if_pos hc]
        exact ih s e h
      · rw [if_neg hc]
        refine ih (s ++ [kv.2]) _ ?_
        have hmem : kv.2 ∉ s := by
          intro hm
          exact hc (List.elem_eq_true_of_mem hm)
        simp [List.nodup_append, h, hmem]
    · rw [if_neg hw]
      exact ih s e h

theorem inferStep_match_dup (text kw spec : String) (s : List String)
    (e : List (String × String)) (hw : wordSearch kw text = true)
    (hc : s.contains spec = true) :
    inferStep text (s, e) (kw, spec) = (s, e) := by
  simp [inferStep, hw, hc]
  exact List.mem_of_elem_eq_true hc

theorem inferStep_match_add (text kw spec : String) (s : List String)
    (e : List (String × String)) (hw : wordSearch kw text = true)
    (hc : s.contains spec = false) :
    inferStep text (s, e) (kw, spec)
      = (s ++ [spec], e ++ [(spec, referralSentence kw spec)]) := by
  simp [inferStep, hw, hc]
  exact fun hm => by simp [hm] at hc

theorem inferStep_skip (text kw spec : String) (s : List String)
    (e : List (String × String)) (hw : wordSearch kw text = false) :
    inferStep text (s, e) (kw, spec) = (s, e) := by
  simp [inferStep, hw]

theorem foldl_infer_mem (text : String) : ∀ (tbl : List (String × String))
    (s : List String) (e : List (String × String)) (spec : String),
    spec ∈ (tbl.foldl (inferStep text) (s, e)).1 ↔
      spec ∈ s ∨ ∃ kv, kv ∈ tbl ∧ kv.2 = spec ∧ wordSearch kv.1 text = true := by
  intro tbl
  induction tbl with
  | nil => intro s e spec; simp
  | cons kv rest ih =>
    obtain ⟨kw, spc⟩ := kv
    intro s e spec
    rw [List.foldl_cons]
    by_cases hw : wordSearch kw text = true
    · by_cases hc : s.contains spc = true
      · rw [inferStep_match_dup text kw spc s e hw hc, ih s e spec]
        constructor
        · rintro (hs | ⟨kv2, hkv2, hspec, hmatch⟩)
          · exact Or.inl hs
          · exact Or.inr ⟨kv2, List.mem_cons_of_mem _ hkv2, hspec, hmatch⟩
        · rintro (hs | ⟨kv2, hkv2, hspec, hmatch⟩)
          · exact Or.inl hs
          · rcases List.mem_cons.mp hkv2 with rfl | hrest
            · subst hspec
              exact Or.inl (List.mem_of_elem_eq_true hc)
            · exact Or.inr ⟨kv2, hrest, hspec, hmatch⟩
      · have hc2 : s.contains spc = false := by
          simpa using hc
        rw [inferStep_match_add text kw spc s e hw hc2,
          ih (s ++ [spc]) _ spec]
        constructor
        · rintro (hs | ⟨kv2, hkv2, hspec, hmatch⟩)
          · rcases List.mem_append.mp hs with hs1 | hs2
            · exact Or.inl hs1
            · refine Or.inr ⟨(kw, spc), List.mem_cons_self _ rest, ?_, hw⟩
              exact (List.mem_singleton.mp hs2).symm
          · exact Or.inr ⟨kv2, List.mem_cons_of_mem _ hkv2, hspec, hmatch⟩
        · rintro (hs | ⟨kv2, hkv2, hspec, hmatch⟩)
          · exact Or.inl (List.mem_append.mpr (Or.inl hs))
          · rcases List.mem_cons.mp hkv2 with rfl | hrest
            · subst hspec
              exact Or.inl
                (List.mem_append.mpr (Or.inr (List.mem_singleton.mpr rfl)))
            · exact Or.inr ⟨kv2, hrest, hspec, hmatch⟩
    · have hw2 : wordSearch kw text = false := by
        simpa using hw
      rw [inferStep_skip text kw spc s e hw2, ih s e spec]
      constructor
      · rintro (hs | ⟨kv2, hkv2, hspec, hmatch⟩)
        · exact Or.inl hs
        · exact Or.inr ⟨kv2, List.mem_cons_of_mem _ hkv2, hspec, hmatch⟩
      · rintro (hs | ⟨kv2, hkv2, hspec, hmatch⟩)
        · exact Or.inl hs
        · rcases List.mem_cons.mp hkv2 with rfl | hrest
          · exact absurd hmatch hw
          · exact Or.inr ⟨kv2, hrest, hspec, hmatch⟩

/-- C6 (confirmed): referral inference matches each table keyword with
word-boundary semantics against the search text in table order; a specialist
role appears at most once (with exactly one justification sentence, keyed in
order, the first matching keyword winning); `"scan results pending"` and
`"the doctor will see you"` (which even contains `"ct"` as a bare substring)
trigger nothing, while `"CT scan ordered"` triggers `Radiologist`, and with
both `"xray"` and `"ct"` present the earlier table entry `"xray"` supplies the
justification. -/
theorem referral_word_boundary :
    (∀ text, (inferAll text).1.Nodup) ∧
    (∀ text, ((inferAll text).2).map Prod.fst = (inferAll text).1) ∧
    (∀ text spec, spec ∈ (inferAll text).1 ↔
      ∃ kv, kv ∈ referralTable ∧ kv.2 = spec ∧ wordSearch kv.1 text = true) ∧
    (aggregate [PyVal.str "CT scan ordered"] (Option.some "s")).map
        AggReport.specialist_suggestions = Option.some ["Radiologist"] ∧
    (aggregate [PyVal.str "scan results pending"] (Option.some "s")).map
        AggReport.specialist_suggestions = Option.some [] ∧
    (aggregate [PyVal.str "the doctor will see you"] (Option.some "s")).map
        AggReport.specialist_suggestions = Option.some [] ∧
    containsSub "ct" "the doctor will see you" = true ∧
    (aggregate [PyVal.str "xray then ct scan"] (Option.some "s")).map
        AggReport.specialist_explanations
      = Option.some [("Radiologist", referralSentence "xray" "Radiologist")] := by
  refine ⟨?_, ?_, ?_, by rfl, by rfl, by rfl, by rfl, by rfl⟩
  · intro text
    exact foldl_infer_nodup text referralTable [] [] List.nodup_nil
  · intro text
    exact foldl_infer_keys text referralTable [] [] rfl
  · intro text spec
    rw [inferAll, foldl_infer_mem text referralTable [] [] spec]
    simp

/-! ### Claim C5 — hematology CBC fallback -/

/-- Modelled from the spec (refinement comparison): the critical Hb threshold
per detected sex (male `10.0`, female `9.0`, unknown `10.0`). -/
def hbCritThreshold : Option CbcSex → ℚ
  | Option.some CbcSex.male => 10
  | Option.some CbcSex.female => 9
  | Option.none => 10

/-- Modelled from the spec (refinement comparison): the low Hb threshold per
detected sex (male `13.0`, female `12.0`, unknown `12.0`). -/
def hbLowThreshold : Option CbcSex → ℚ
  | Option.some CbcSex.male => 13
  | Option.some CbcSex.female => 12
  | Option.none => 12

theorem hbClassify_crit (sex : Option CbcSex) (h : ℚ)
    (hcrit : h < hbCritThreshold sex) :
    hbClassify sex h "low" = ("low (moderate to severe)", "high") := by
  cases sex with
  | none =>
    simp only [hbCritThreshold] at hcrit
    simp [hbClassify, hcrit]
  | some sx =>
    cases sx with
    | male =>
      simp only [hbCritThreshold] at hcrit
      simp [hbClassify, hcrit]
    | female =>
      simp only [hbCritThreshold] at hcrit
      simp [hbClassify, hcrit]

theorem hbClassify_mild (sex : Option CbcSex) (h : ℚ)
    (h1 : hbCritThreshold sex ≤ h) (h2 : h < hbLowThreshold sex) :
    hbClassify sex h "low" = ("low (mild)", "medium") := by
  cases sex with
  | none =>
    simp only [hbCritThreshold] at h1
    simp only [hbLowThreshold] at h2
    simp [hbClassify, not_lt.mpr h1, h2]
  | some sx =>
    cases sx with
    | male =>
      simp only [hbCritThreshold] at h1
      simp only [hbLowThreshold] at h2
      simp [hbClassify, not_lt.mpr h1, h2]
    | female =>
      simp only [hbCritThreshold] at h1
      simp only [hbLowThreshold] at h2
      simp [hbClassify, not_lt.mpr h1, h2]

theorem hbClassify_normal (sex : Option CbcSex) (h : ℚ)
    (h1 : hbLowThreshold sex ≤ h) :
    hbClassify sex h "low" = ("normal", "low") := by
  cases sex with
  | none =>
    simp only [hbLowThreshold] at h1
    have h0 : ¬(h < 10) := not_lt.mpr (le_trans (by norm_num) h1)
    simp [hbClassify, h0, not_lt.mpr h1]
  | some sx =>
    cases sx with
    | male =>
      simp only [hbLowThreshold] at h1
      have h0 : ¬(h < 10) := not_lt.mpr (le_trans (by norm_num) h1)
      simp [hbClassify, h0, not_lt.mpr h1]
    | female =>
      simp only [hbLowThreshold] at h1
      have h0 : ¬(h < 9) := not_lt.mpr (le_trans (by norm_num) h1)
      simp [hbClassify, h0, not_lt.mpr h1]

theorem parseCbc_severity (vals : CbcVals) (h : ℚ)
    (hhb : vals.hb = Option.some h) :
    (parseCbcFromVals vals).severity = (hbClassify vals.sex h "low").2 := by
  unfold parseCbcFromVals
  rw [hhb]

theorem parseCbc_hb_lookup (vals : CbcVals) (h : ℚ)
    (hhb : vals.hb = Option.some h) :
    lookupStr (parseCbcFromVals vals).abnormal_values "Hb"
      = Option.some (renderQ h ++ " g/dL ("
          ++ (hbClassify vals.sex h "low").1 ++ ")") := by
  unfold parseCbcFromVals
  rw [hhb]
  cases hwbc : vals.wbc with
  | none =>
    cases hplate : vals.plate with
    | none => rfl
    | some p => rfl
  | some w =>
    cases hplate : vals.plate with
    | none => rfl
    | some p => rfl

/-- C5 (confirmed): a hematology agent result that looks like a raw CBC table
(raw text containing "hemoglobin", or both "hb" and "rbc"; or a mapping with
neither findings nor abnormal_values populated that mentions hb) is replaced
by the deterministic CBC parser output, whose `abnormal_values["Hb"]` note and
severity follow the sex-aware thresholds (male low `<13`, critical `<10`;
female low `<12`, critical `<9`) and the conservative unisex thresholds (low
`<12`, critical `<10`) when sex is unknown — severity `"high"` on critical,
`"medium"` on mild-low, `"low"` otherwise. -/
theorem cbc_hb_thresholds :
    (∀ vals h, vals.hb = Option.some h →
      (h < hbCritThreshold vals.sex →
        (parseCbcFromVals vals).severity = "high" ∧
        lookupStr (parseCbcFromVals vals).abnormal_values "Hb"
          = Option.some (renderQ h ++ " g/dL (low (moderate to severe))")) ∧
      (hbCritThreshold vals.sex ≤ h → h < hbLowThreshold vals.sex →
        (parseCbcFromVals vals).severity = "medium" ∧
        lookupStr (parseCbcFromVals vals).abnormal_values "Hb"
          = Option.some (renderQ h ++ " g/dL (low (mild))")) ∧
      (hbLowThreshold vals.sex ≤ h →
        (parseCbcFromVals vals).severity = "low" ∧
        lookupStr (parseCbcFromVals vals).abnormal_values "Hb"
          = Option.some (renderQ h ++ " g/dL (normal)"))) ∧
    (∀ res vals role, looksLikeRawCbc res = true →
      hemaCbcStep res vals role
        = PyVal.dict (cbcToDict (parseCbcFromVals vals) role)) ∧
    looksLikeRawCbc (PyVal.str "Hemoglobin 8.5, RBC 3.2") = true ∧
    (∀ d, truthy (pyGetOr d "findings") = false →
      truthy (pyGetOr d "abnormal_values") = false →
      containsSub "hb" (pyLower (pyStr (PyVal.dict d))) = true →
      looksLikeRawCbc (PyVal.dict d) = true) := by
  refine ⟨?_, ?_, by rfl, ?_⟩
  · intro vals h hhb
    refine ⟨fun hcrit => ?_, fun h1 h2 => ?_, fun h1 => ?_⟩
    · constructor
      · rw [parseCbc_severity vals h hhb, hbClassify_crit vals.sex h hcrit]
      · rw [parseCbc_hb_lookup vals h hhb, hbClassify_crit vals.sex h hcrit]
        simp only [String.append_assoc]
        rfl
    · constructor
      · rw [parseCbc_severity vals h hhb, hbClassify_mild vals.sex h h1 h2]
      · rw [parseCbc_hb_lookup vals h hhb, hbClassify_mild vals.sex h h1 h2]
        simp only [String.append_assoc]
        rfl
    · constructor
      · rw [parseCbc_severity vals h hhb, hbClassify_normal vals.sex h h1]
      · rw [parseCbc_hb_lookup vals h hhb, hbClassify_normal vals.sex h h1]
        simp only [String.append_assoc]
        rfl
  · intro res vals role hlook
    unfold hemaCbcStep
    rw [if_pos hlook]
  · intro d h1 h2 h3
    simp [looksLikeRawCbc, h1, h2, h3]

/-- C5 witness: the theorem applied at Hb `8.5`, unknown sex, and the
raw-text trigger example from the spec. -/
theorem cbc_hb_thresholds_witness :
    (parseCbcFromVals (CbcVals.mk (Option.some (mkRat 17 2)) Option.none
        Option.none Option.none Option.none Option.none Option.none)).severity
      = "high" ∧
    lookupStr (parseCbcFromVals (CbcVals.mk (Option.some (mkRat 17 2))
        Option.none Option.none Option.none Option.none Option.none
        Option.none)).abnormal_values "Hb"
      = Option.some (renderQ (mkRat 17 2) ++ " g/dL (low (moderate to severe))") ∧
    hemaCbcStep (PyVal.str "Hemoglobin 8.5, RBC 3.2")
        (CbcVals.mk (Option.some (mkRat 17 2)) Option.none Option.none
          Option.none Option.none Option.none Option.none) "Hematologist"
      = PyVal.dict (cbcToDict (parseCbcFromVals (CbcVals.mk
          (Option.some (mkRat 17 2)) Option.none Option.none Option.none
          Option.none Option.none Option.none)) "Hematologist") := by
  have h := cbc_hb_thresholds
  refine ⟨?_, ?_, ?_⟩
  · exact ((h.1 (CbcVals.mk (Option.some (mkRat 17 2)) Option.none Option.none
      Option.none Option.none Option.none Option.none) (mkRat 17 2) rfl).1
      (by decide)).1
  · exact ((h.1 (CbcVals.mk (Option.some (mkRat 17 2)) Option.none Option.none
      Option.none Option.none Option.none Option.none) (mkRat 17 2) rfl).1
      (by decide)).2
  · exact h.2.1 (PyVal.str "Hemoglobin 8.5, RBC 3.2") _ "Hematologist" (by rfl)
